import Mathlib

/-!
Verification development for the schema-catalog core of the `matrix` repository
(`cmd/matrix/schema_catalog.go`): schema extraction from SQL `CREATE TABLE`
statements, versioned snapshot storage, and the snapshot diff engine.

Modelling conventions:
* Go strings are Lean `String`s; character-level work happens on `String.data`
  (`List Char`) with structural recursion so that everything evaluates.
* Go maps (`map[string]*Table`, `map[string]Column`) are association lists;
  the list order stands in for Go's unspecified iteration order, and the
  map-validity fact "keys are unique" appears as an explicit `Nodup`
  hypothesis where a theorem needs it.
* Character classes follow Go's RE2/`strings` semantics on the ASCII range
  (the repository's schema files are ASCII).
-/

/-! ## Character and string utilities (Go `strings` / RE2 semantics) -/

/-- Backtick character, written via its code point. -/
def backtickChar : Char := Char.ofNat 96

/-- Double-quote character, written via its code point. -/
def dquoteChar : Char := Char.ofNat 34

/-- Whitespace per Go's `unicode.IsSpace` restricted to Latin-1
(space, tab, newline, vertical tab, form feed, carriage return, NEL, NBSP). -/
def isGoSpace (c : Char) : Bool :=
  c == ' ' || c == '\t' || c == '\n' || c == '\x0b' || c == '\x0c' || c == '\r' ||
  c == '\x85' || c == '\xa0'

/-- Whitespace class `\s` of Go's RE2 regexp engine: `[\t\n\f\r ]`. -/
def isRESpace (c : Char) : Bool :=
  c == ' ' || c == '\t' || c == '\n' || c == '\x0c' || c == '\r'

/-- Word-character class `\w` of Go's RE2 regexp engine: `[0-9A-Za-z_]`. -/
def wordChar (c : Char) : Bool :=
  (c ≥ 'a' && c ≤ 'z') || (c ≥ 'A' && c ≤ 'Z') || (c ≥ '0' && c ≤ '9') || c == '_'

/-- Prefix test on character lists, mirroring Go's `strings.HasPrefix`. -/
def leadsWith : List Char → List Char → Bool
  | [], _ => true
  | _ :: _, [] => false
  | p :: ps, c :: cs => p == c && leadsWith ps cs

/-- Suffix test on character lists, mirroring Go's `strings.HasSuffix`. -/
def trailsWith (pat l : List Char) : Bool :=
  leadsWith pat.reverse l.reverse

/-- Substring test, mirroring Go's `strings.Contains` (empty pattern matches). -/
def containsSub (pat : List Char) : List Char → Bool
  | [] => pat.isEmpty
  | c :: cs => leadsWith pat (c :: cs) || containsSub pat cs

/-- Split on a separator character; mirrors Go's `strings.Split` with a
one-character separator (always returns at least one piece). -/
def splitChar (sep : Char) : List Char → List (List Char)
  | [] => [[]]
  | c :: cs =>
    let r := splitChar sep cs
    if c == sep then [] :: r
    else
      match r with
      | [] => [[c]]
      | h :: t => (c :: h) :: t

/-- Trim characters satisfying `p` from both ends, mirroring Go's
`strings.TrimFunc` family. -/
def trimBy (p : Char → Bool) (l : List Char) : List Char :=
  ((l.dropWhile p).reverse.dropWhile p).reverse

/-- Go's `strings.TrimSpace` on a character list. -/
def trimSpaceL (l : List Char) : List Char :=
  trimBy isGoSpace l

/-- ASCII upper-casing of one character, as Go's `strings.ToUpper` acts on
the ASCII range. -/
def upChar (c : Char) : Char :=
  if c ≥ 'a' && c ≤ 'z' then Char.ofNat (c.toNat - 32) else c

/-- Go's `strings.ToUpper` (ASCII range). -/
def upperL (l : List Char) : List Char :=
  l.map upChar

/-- Go's `strings.Fields`: split around runs of whitespace. -/
def fieldsAux (acc : List Char) : List Char → List (List Char)
  | [] => if acc.isEmpty then [] else [acc.reverse]
  | c :: cs =>
    if isGoSpace c then
      if acc.isEmpty then fieldsAux [] cs else acc.reverse :: fieldsAux [] cs
    else fieldsAux (c :: acc) cs

/-- Fields of a character list (Go `strings.Fields`). -/
def fieldsL (l : List Char) : List (List Char) :=
  fieldsAux [] l

/-! ## Data model (structs of `schema_catalog.go`) -/

/-- Column of a table, as the Go struct `Column`. The `default` field is the
raw default-value text, `""` meaning absent (Go zero value). -/
structure Column where
  name : String
  type : String
  nullable : Bool
  primaryKey : Bool
  unique : Bool
  default : String
deriving DecidableEq

/-- Index of a table, as the Go struct `Index` (never populated by the
extractor; kept for structural fidelity). -/
structure Index where
  name : String
  columns : List String
  unique : Bool
deriving DecidableEq

/-- Foreign-key constraint, as the Go struct `ForeignKey` (never populated by
the extractor; kept for structural fidelity). -/
structure ForeignKey where
  column : String
  referencedTable : String
  referencedColumn : String
deriving DecidableEq

/-- Table, as the Go struct `Table`. -/
structure Table where
  name : String
  columns : List Column
  indexes : List Index
  foreignKeys : List ForeignKey
deriving DecidableEq

/-- Schema snapshot, as the Go struct `SchemaSnapshot`. The Go `Tables` map
is an association list whose order stands in for map iteration order; the
`time.Time` snapshot time is a numeric timestamp. -/
structure SchemaSnapshot where
  project : String
  snapshotTime : Nat
  source : String
  gitCommit : String
  checksum : String
  tables : List (String × Table)
  sourceFiles : List String
deriving DecidableEq

/-- Diff between two snapshots, as the Go struct `SchemaDiff`. -/
structure SchemaDiff where
  added : List String
  modified : List String
  removed : List String
deriving DecidableEq

/-- Well-formedness of the modelled `Tables` map: Go map keys are unique. -/
def keysNodup (s : SchemaSnapshot) : Prop :=
  (s.tables.map Prod.fst).Nodup

instance (s : SchemaSnapshot) : Decidable (keysNodup s) := by
  unfold keysNodup; infer_instance

/-! ## Schema extractor: `parseColumns` -/

/-- Search for Go's `(?i)DEFAULT\s+([^,\s]+)` starting exactly at the head of
the list: the literal `DEFAULT` (case-insensitively), at least one `\s`
character, then a maximal nonempty run of characters that are neither commas
nor whitespace. -/
def defaultAt (l : List Char) : Option (List Char) :=
  if leadsWith "DEFAULT".data (upperL l) then
    let r := l.drop 7
    match r with
    | c :: cs =>
      if isRESpace c then
        let body := cs.dropWhile isRESpace
        let tok := body.takeWhile (fun d => !(isRESpace d || d == ','))
        if tok.isEmpty then none else some tok
      else none
    | [] => none
  else none

/-- First match of Go's `(?i)DEFAULT\s+([^,\s]+)` anywhere in the list
(`regexp.FindStringSubmatch` scans left to right). -/
def findDefault : List Char → Option (List Char)
  | [] => none
  | c :: cs =>
    match defaultAt (c :: cs) with
    | some tok => some tok
    | none => findDefault cs

/-- One iteration of the loop body of `parseColumns` in `schema_catalog.go`:
trim the fragment, discard constraint clauses by prefix test on the
uppercased text, then read the column name and type from the first two
whitespace-delimited fields and the modifier flags from substring tests. -/
def parseColumnL (frag : List Char) : Option Column :=
  let line := trimSpaceL frag
  let upper := upperL line
  if leadsWith "PRIMARY KEY".data upper || leadsWith "FOREIGN KEY".data upper ||
     leadsWith "UNIQUE".data upper || leadsWith "INDEX".data upper ||
     leadsWith "KEY".data upper || leadsWith "CONSTRAINT".data upper then
    none
  else
    match fieldsL line with
    | p0 :: p1 :: _ =>
      let colName := trimBy (fun c => c == backtickChar || c == dquoteChar) p0
      let nullable :=
        if containsSub "PRIMARY KEY".data upper then false
        else if containsSub "NOT NULL".data upper then false
        else true
      some
        { name := String.mk colName
          type := String.mk p1
          nullable := nullable
          primaryKey := containsSub "PRIMARY KEY".data upper
          unique := containsSub "UNIQUE".data upper
          default :=
            match findDefault line with
            | some tok => String.mk tok
            | none => "" }
    | _ => none

/-- Go's `parseColumns`: split the `CREATE TABLE` body on commas (naively) and
parse each fragment; fragments with fewer than two fields and constraint
clauses contribute nothing. -/
def parseColumns (columnsStr : String) : List Column :=
  (splitChar ',' columnsStr.data).filterMap parseColumnL

example : parseColumns "id INT PRIMARY KEY, name TEXT NOT NULL" =
    [{ name := "id", type := "INT", nullable := false, primaryKey := true,
       unique := false, default := "" },
     { name := "name", type := "TEXT", nullable := false, primaryKey := false,
       unique := false, default := "" }] := by decide

/-! ## Schema extractor: the `CREATE TABLE` pattern of `parseSQLSchema`

Go locates statements with the RE2 pattern
`(?si)CREATE\s+TABLE(?:\s+IF\s+NOT\s+EXISTS)?\s+` followed by an identifier
alternation (optionally backtick- or double-quote-delimited `\w+`) and
`\s*\((.*?)\);`.  The scanner below translates that pattern piecewise:
keywords match case-insensitively, `\s+`/`\w+` take maximal runs (no
following pattern piece can consume those characters, so maximal munch
agrees with the backtracking semantics), the optional `IF NOT EXISTS` group
is tried first and retried without on failure, and the lazy `(.*?)\);` tail
takes everything up to the first `);`. -/

/-- Case-insensitive literal match; on success returns the rest of the input. -/
def matchLit : List Char → List Char → Option (List Char)
  | [], l => some l
  | _ :: _, [] => none
  | k :: ks, c :: cs => if upChar k == upChar c then matchLit ks cs else none

/-- Pattern piece `\s+`: at least one RE2 whitespace character, maximal run. -/
def matchSpaces1 : List Char → Option (List Char)
  | [] => none
  | c :: cs => if isRESpace c then some (cs.dropWhile isRESpace) else none

/-- Pattern piece `(\w+)`: a maximal nonempty run of word characters, returned
together with the rest of the input. -/
def word1 : List Char → Option (List Char × List Char)
  | [] => none
  | c :: cs =>
    if wordChar c then some ((c :: cs).takeWhile wordChar, (c :: cs).dropWhile wordChar)
    else none

/-- Consume one optional occurrence of the character `q`. -/
def dropOpt (q : Char) : List Char → List Char
  | [] => []
  | c :: cs => if c == q then cs else c :: cs

/-- Consume one optional closing backtick or double quote (the delimiter
alternation `` `?(\w+)`?|"?(\w+)"? `` allows either branch to close an
undelimited identifier). -/
def dropOptQuote : List Char → List Char
  | [] => []
  | c :: cs => if c == backtickChar || c == dquoteChar then cs else c :: cs

/-- Identifier alternation `` (?:`?(\w+)`?|"?(\w+)"?) `` of the Go pattern:
an optional backtick or double-quote delimiter, a word, and an optional
matching closing delimiter. -/
def matchName (l : List Char) : Option (List Char × List Char) :=
  match l with
  | [] => none
  | c :: cs =>
    if c == backtickChar then
      match word1 cs with
      | some (w, r) => some (w, dropOpt backtickChar r)
      | none => none
    else if c == dquoteChar then
      match word1 cs with
      | some (w, r) => some (w, dropOpt dquoteChar r)
      | none => none
    else
      match word1 l with
      | some (w, r) => some (w, dropOptQuote r)
      | none => none

/-- Lazy tail `(.*?)\);` of the Go pattern: split at the first occurrence of
`);`, returning the body before it and the input after it. -/
def splitAtCloseSemi : List Char → Option (List Char × List Char)
  | [] => none
  | c :: cs =>
    if c == ')' && cs.head? == some ';' then some ([], cs.tail)
    else
      match splitAtCloseSemi cs with
      | some (body, rest) => some (c :: body, rest)
      | none => none

/-- Pattern suffix `\s*\((.*?)\);` after the table identifier. -/
def bodyAfterName (l : List Char) : Option (List Char × List Char) :=
  match l.dropWhile isRESpace with
  | '(' :: rest => splitAtCloseSemi rest
  | _ => none

/-- Pattern suffix `\s+<identifier>\s*\((.*?)\);`, yielding the captured
identifier, the captured body and the rest of the input. -/
def nameAndBody (l : List Char) : Option (List Char × List Char × List Char) :=
  match matchSpaces1 l with
  | none => none
  | some r1 =>
    match matchName r1 with
    | none => none
    | some (w, r2) =>
      match bodyAfterName r2 with
      | none => none
      | some (body, rest) => some (w, body, rest)

/-- Optional group `(?:\s+IF\s+NOT\s+EXISTS)?` of the Go pattern. -/
def ifNotExistsAt (l : List Char) : Option (List Char) :=
  match matchSpaces1 l with
  | none => none
  | some r1 =>
    match matchLit "IF".data r1 with
    | none => none
    | some r2 =>
      match matchSpaces1 r2 with
      | none => none
      | some r3 =>
        match matchLit "NOT".data r3 with
        | none => none
        | some r4 =>
          match matchSpaces1 r4 with
          | none => none
          | some r5 =>
            match matchLit "EXISTS".data r5 with
            | none => none
            | some r6 => some r6

/-- Whole pattern anchored at the current position: `CREATE\s+TABLE`, the
optional `IF NOT EXISTS` group (tried greedily, retried without on failure),
then the identifier and parenthesised body. -/
def matchCreate (l : List Char) : Option (List Char × List Char × List Char) :=
  match matchLit "CREATE".data l with
  | none => none
  | some r1 =>
    match matchSpaces1 r1 with
    | none => none
    | some r2 =>
      match matchLit "TABLE".data r2 with
      | none => none
      | some r3 =>
        match ifNotExistsAt r3 with
        | some r4 =>
          match nameAndBody r4 with
          | some res => some res
          | none => nameAndBody r3
        | none => nameAndBody r3

/-- Scan of `regexp.FindAllStringSubmatch`: try the pattern at every position,
left to right, resuming after the end of each (non-overlapping) match. The
fuel argument starts at the input length; every step consumes at least one
character, so it never runs out. -/
def findAllCreates : Nat → List Char → List (List Char × List Char)
  | 0, _ => []
  | _ + 1, [] => []
  | fuel + 1, c :: cs =>
    match matchCreate (c :: cs) with
    | some (w, body, rest) => (w, body) :: findAllCreates fuel rest
    | none => findAllCreates fuel cs

/-- Go's `parseSQLSchema`: every `CREATE TABLE` match becomes a `Table` whose
columns come from `parseColumns`, with empty index and foreign-key lists. -/
def parseSQLSchema (content : String) : List Table :=
  (findAllCreates content.data.length content.data).map fun m =>
    { name := String.mk m.1
      columns := (splitChar ',' m.2).filterMap parseColumnL
      indexes := []
      foreignKeys := [] }

example : parseSQLSchema "CREATE TABLE users (id INT PRIMARY KEY);" =
    [{ name := "users"
       columns := [{ name := "id", type := "INT", nullable := false,
                     primaryKey := true, unique := false, default := "" }]
       indexes := []
       foreignKeys := [] }] := by decide

/-! ## Diff engine: `compareSnapshots` -/

/-- Lookup in the modelled `Tables` map (`old.Tables[tableName]`): the first
entry with the given key. -/
def lookupTable (ts : List (String × Table)) (k : String) : Option Table :=
  (ts.find? (fun p => p.1 == k)).map Prod.snd

/-- Lookup in the Go map `oldCols` that `compareSnapshots` builds from a
column list: insertion under `col.Name` makes the last occurrence of a name
win, hence the search over the reversed list. -/
def colFind (cols : List Column) (n : String) : Option Column :=
  cols.reverse.find? (fun c => c.name == n)

/-- Column-level `Added` entries that `compareSnapshots` produces for a table
present in both snapshots: new columns absent from `oldCols`, rendered as
`<table>.<column> (<type>)`. -/
def colAdded (t : String) (oldT newT : Table) : List String :=
  newT.columns.filterMap fun nc =>
    if (colFind oldT.columns nc.name).isSome then none
    else some (t ++ "." ++ nc.name ++ " (" ++ nc.type ++ ")")

/-- Column-level `Modified` entries for a table present in both snapshots:
columns whose type or nullability changed, rendered as
`<table>.<column> (<oldType> -> <newType>)`. -/
def colModified (t : String) (oldT newT : Table) : List String :=
  newT.columns.filterMap fun nc =>
    match colFind oldT.columns nc.name with
    | none => none
    | some oc =>
      if oc.type != nc.type || oc.nullable != nc.nullable then
        some (t ++ "." ++ nc.name ++ " (" ++ oc.type ++ " -> " ++ nc.type ++ ")")
      else none

/-- Column-level `Removed` entries for a table present in both snapshots: old
columns whose name is absent from the `newCols` name set, rendered as
`<table>.<column>`. -/
def colRemoved (t : String) (oldT newT : Table) : List String :=
  oldT.columns.filterMap fun oc =>
    if newT.columns.any (fun c => c.name == oc.name) then none
    else some (t ++ "." ++ oc.name)

/-- Entries appended to `Added` while `compareSnapshots` iterates over the new
snapshot's tables: a whole-table entry for tables absent from the old
snapshot, otherwise the column-level additions. -/
def diffAdded (o n : SchemaSnapshot) : List String :=
  n.tables.flatMap fun p =>
    match lookupTable o.tables p.1 with
    | none => ["table: " ++ p.1]
    | some oldT => colAdded p.1 oldT p.2

/-- Entries appended to `Modified` while iterating over the new snapshot's
tables. -/
def diffModified (o n : SchemaSnapshot) : List String :=
  n.tables.flatMap fun p =>
    match lookupTable o.tables p.1 with
    | none => []
    | some oldT => colModified p.1 oldT p.2

/-- Entries appended to `Removed`: column-level removals during the iteration
over the new snapshot's tables, then whole-table entries for old tables
absent from the new snapshot. -/
def diffRemoved (o n : SchemaSnapshot) : List String :=
  (n.tables.flatMap fun p =>
    match lookupTable o.tables p.1 with
    | none => []
    | some oldT => colRemoved p.1 oldT p.2) ++
  o.tables.filterMap fun p =>
    if (lookupTable n.tables p.1).isSome then none
    else some ("table: " ++ p.1)

/-- Go's `compareSnapshots`: the three change sequences of the diff. -/
def compareSnapshots (o n : SchemaSnapshot) : SchemaDiff :=
  { added := diffAdded o n
    modified := diffModified o n
    removed := diffRemoved o n }

/-- Concrete snapshot used in examples: one table `users(id INT)`. -/
def snapOld : SchemaSnapshot :=
  { project := "demo", snapshotTime := 10, source := "/demo", gitCommit := ""
    checksum := ""
    tables := [("users",
      { name := "users"
        columns := [{ name := "id", type := "INT", nullable := false,
                      primaryKey := true, unique := false, default := "" }]
        indexes := [], foreignKeys := [] })]
    sourceFiles := ["/demo/schema.sql"] }

/-- Concrete snapshot used in examples: `users(id INT, email TEXT)`. -/
def snapNew : SchemaSnapshot :=
  { snapOld with
    snapshotTime := 20
    tables := [("users",
      { name := "users"
        columns := [{ name := "id", type := "INT", nullable := false,
                      primaryKey := true, unique := false, default := "" },
                    { name := "email", type := "TEXT", nullable := true,
                      primaryKey := false, unique := false, default := "" }]
        indexes := [], foreignKeys := [] })] }

example : compareSnapshots snapOld snapNew =
    { added := ["users.email (TEXT)"], modified := [], removed := [] } := by decide

example : compareSnapshots snapNew snapOld =
    { added := [], modified := [], removed := ["users.email"] } := by decide

/-! ## Association-list lemmas for the modelled Go maps -/

/-- Uniqueness of column names within every table of a snapshot (the data
model invariant the extractor maintains for well-formed schemas). -/
def tableColsNodup (s : SchemaSnapshot) : Prop :=
  ∀ p ∈ s.tables, (p.2.columns.map Column.name).Nodup

instance (s : SchemaSnapshot) : Decidable (tableColsNodup s) := by
  unfold tableColsNodup; infer_instance

/-! ## Claim C1: diff asymmetry

The `Added` entries of `compare(A, B)` carry a type annotation
(`"t.c (TYPE)"`) that the `Removed` entries of `compare(B, A)` (`"t.c"`) do
not, so the two sets are not literally equal.  They agree exactly after the
annotation introduced by `" ("` is stripped from the `Added` descriptors. -/

/-- Truncation of a descriptor at the first occurrence of the two-character
sequence `" ("`: the part of an `Added` descriptor before its type
annotation. -/
def stripChars : List Char → List Char
  | [] => []
  | c :: cs => if c == ' ' && cs.head? == some '(' then [] else c :: stripChars cs

/-- Descriptor with its type annotation stripped. -/
def stripDesc (s : String) : String :=
  String.mk (stripChars s.data)

/-- Identifier hygiene: no space and no opening parenthesis.  Table names
captured by the extraction pattern are `\w+` words and column names are
whitespace-delimited fields, so extracted identifiers satisfy this. -/
def cleanName (s : String) : Bool :=
  s.data.all fun c => !(c == ' ' || c == '(')

/-- Hygiene of every table key and column name of a snapshot. -/
def cleanNames (s : SchemaSnapshot) : Bool :=
  s.tables.all fun p => cleanName p.1 && p.2.columns.all fun c => cleanName c.name

/-- Source text of the extraction edge case of the spec. -/
def sessionsSQL : String :=
  "CREATE TABLE IF NOT EXISTS sessions (id VARCHAR(36) PRIMARY KEY, token TEXT NOT NULL, created_at TIMESTAMP DEFAULT NOW());"

/-! ## Lexicographic string order (Go's byte-wise string sorting)

Both `encoding/json` map-key sorting and `sort.Strings` (used on glob
results) order strings byte-wise; on UTF-8 this is code-point order. -/

/-- Lexicographic comparison of character lists by code point. -/
def listCharLE : List Char → List Char → Bool
  | [], _ => true
  | _ :: _, [] => false
  | a :: as, b :: bs => if a == b then listCharLE as bs else decide (a < b)

/-- Byte-wise string order of Go's `sort.Strings` and JSON key sorting. -/
def strLE (a b : String) : Prop :=
  listCharLE a.data b.data = true

instance : DecidableRel strLE := fun a b => by unfold strLE; infer_instance

/-! ## Claim C2: checksum determinism

`calculateChecksum` is `sha256.Sum256(json.Marshal(snapshot.Tables))` printed
as lowercase hex.  Go's `encoding/json` serialises a map by sorting its keys,
so the bytes — and hence the checksum — depend only on the key-to-table
mapping, not on insertion order.  The JSON encoder and SHA-256 are modelled
below; the determinism theorem only relies on the serialisation being a
function of the sorted key list and the per-key lookups. -/

/-- Lowercase hexadecimal digit (Go's `%x`). -/
def hexDigit (n : Nat) : Char :=
  if n < 10 then Char.ofNat (48 + n) else Char.ofNat (87 + n)

/-- Two lowercase hex digits of a byte. -/
def hexByte (n : Nat) : List Char :=
  [hexDigit (n / 16 % 16), hexDigit (n % 16)]

/-- Big-endian bytes of a 32-bit word. -/
def word32Bytes (w : Nat) : List Nat :=
  [w / 2 ^ 24 % 256, w / 2 ^ 16 % 256, w / 2 ^ 8 % 256, w % 256]

/-- Big-endian bytes of a 64-bit length field. -/
def lenBytes64 (n : Nat) : List Nat :=
  [n / 2 ^ 56 % 256, n / 2 ^ 48 % 256, n / 2 ^ 40 % 256, n / 2 ^ 32 % 256,
   n / 2 ^ 24 % 256, n / 2 ^ 16 % 256, n / 2 ^ 8 % 256, n % 256]

/-- Right rotation within 32 bits. -/
def rotr (k n : Nat) : Nat :=
  ((n >>> k) ||| (n <<< (32 - k))) % 2 ^ 32

/-- UTF-8 encoding of one character as byte values. -/
def utf8Bytes (c : Char) : List Nat :=
  let n := c.toNat
  if n < 128 then [n]
  else if n < 2048 then [192 + n / 64, 128 + n % 64]
  else if n < 65536 then [224 + n / 4096, 128 + n / 64 % 64, 128 + n % 64]
  else [240 + n / 262144, 128 + n / 4096 % 64, 128 + n / 64 % 64, 128 + n % 64]

/-- UTF-8 bytes of a string (Go strings are UTF-8 byte slices). -/
def strBytes (s : String) : List Nat :=
  s.data.flatMap utf8Bytes

/-- SHA-256 message padding: `0x80`, zeros to 56 mod 64, 64-bit bit length. -/
def sha256pad (msg : List Nat) : List Nat :=
  let len := msg.length
  msg ++ 128 :: List.replicate ((64 + 56 - (len + 1) % 64) % 64) 0 ++ lenBytes64 (len * 8)

/-- Split a byte list into 64-byte chunks (the fuel starts at the length, and
every step consumes 64 bytes, so it never runs out). -/
def chunks64 : Nat → List Nat → List (List Nat)
  | 0, _ => []
  | _ + 1, [] => []
  | fuel + 1, l => l.take 64 :: chunks64 fuel (l.drop 64)

/-- Big-endian 32-bit words of a chunk. -/
def bytesToWords : List Nat → List Nat
  | b0 :: b1 :: b2 :: b3 :: rest =>
    (b0 * 2 ^ 24 + b1 * 2 ^ 16 + b2 * 2 ^ 8 + b3) :: bytesToWords rest
  | _ => []

/-- SHA-256 message-schedule sigma functions. -/
def smallSigma0 (x : Nat) : Nat := rotr 7 x ^^^ rotr 18 x ^^^ (x >>> 3)

/-- Second message-schedule sigma function. -/
def smallSigma1 (x : Nat) : Nat := rotr 17 x ^^^ rotr 19 x ^^^ (x >>> 10)

/-- SHA-256 compression sigma functions. -/
def bigSigma0 (x : Nat) : Nat := rotr 2 x ^^^ rotr 13 x ^^^ rotr 22 x

/-- Second compression sigma function. -/
def bigSigma1 (x : Nat) : Nat := rotr 6 x ^^^ rotr 11 x ^^^ rotr 25 x

/-- Message-schedule extension: append the next scheduled word `k` times. -/
def scheduleAux : Nat → List Nat → List Nat
  | 0, w => w
  | k + 1, w =>
    let i := w.length
    let nw := (w.getD (i - 16) 0 + smallSigma0 (w.getD (i - 15) 0) +
               w.getD (i - 7) 0 + smallSigma1 (w.getD (i - 2) 0)) % 2 ^ 32
    scheduleAux k (w ++ [nw])

/-- Full 64-word message schedule of one chunk. -/
def schedule (w : List Nat) : List Nat :=
  scheduleAux 48 w

/-- SHA-256 round constants. -/
def sha256K : List Nat :=
  [1116352408, 1899447441, 3049323471, 3921009573, 961987163, 1508970993,
   2453635748, 2870763221, 3624381080, 310598401, 607225278, 1426881987,
   1925078388, 2162078206, 2614888103, 3248222580, 3835390401, 4022224774,
   264347078, 604807628, 770255983, 1249150122, 1555081692, 1996064986,
   2554220882, 2821834349, 2952996808, 3210313671, 3336571891, 3584528711,
   113926993, 338241895, 666307205, 773529912, 1294757372, 1396182291,
   1695183700, 1986661051, 2177026350, 2456956037, 2730485921, 2820302411,
   3259730800, 3345764771, 3516065817, 3600352804, 4094571909, 275423344,
   430227734, 506948616, 659060556, 883997877, 958139571, 1322822218,
   1537002063, 1747873779, 1955562222, 2024104815, 2227730452, 2361852424,
   2428436474, 2756734187, 3204031479, 3329325298]

/-- One SHA-256 compression round on the eight-word working state. -/
def compressRound (st : List Nat) (kw : Nat × Nat) : List Nat :=
  match st with
  | [a, b, c, d, e, f, g, h] =>
    let ch := (e &&& f) ^^^ ((e ^^^ 0xffffffff) &&& g)
    let t1 := (h + bigSigma1 e + ch + kw.1 + kw.2) % 2 ^ 32
    let maj := (a &&& b) ^^^ (a &&& c) ^^^ (b &&& c)
    let t2 := (bigSigma0 a + maj) % 2 ^ 32
    [(t1 + t2) % 2 ^ 32, a, b, c, (d + t1) % 2 ^ 32, e, f, g]
  | other => other

/-- Process one 64-byte chunk into the running hash state. -/
def processChunk (h : List Nat) (chunk : List Nat) : List Nat :=
  let st := ((sha256K.zip (schedule (bytesToWords chunk))).foldl compressRound h)
  (h.zip st).map fun p => (p.1 + p.2) % 2 ^ 32

/-- SHA-256 initial hash state. -/
def sha256init : List Nat :=
  [1779033703, 3144134277, 1013904242, 2773480762,
   1359893119, 2600822924, 528734635, 1541459225]

/-- SHA-256 of a byte list, printed as 64 lowercase hex digits
(Go's `fmt.Sprintf("%x", sha256.Sum256(data))`). -/
def sha256hexBytes (msg : List Nat) : String :=
  let padded := sha256pad msg
  let hs := (chunks64 padded.length padded).foldl processChunk sha256init
  String.mk (hs.flatMap fun w => (word32Bytes w).flatMap hexByte)

/-- JSON escaping of one character, as Go's `encoding/json` encoder (which
also HTML-escapes angle brackets and ampersands). -/
def jsonEscapeChar (c : Char) : List Char :=
  if c == dquoteChar then ['\\', dquoteChar]
  else if c == '\\' then ['\\', '\\']
  else if c == '\n' then ['\\', 'n']
  else if c == '\r' then ['\\', 'r']
  else if c == '\t' then ['\\', 't']
  else if c == '<' then '\\' :: 'u' :: '0' :: '0' :: '3' :: 'c' :: []
  else if c == '>' then '\\' :: 'u' :: '0' :: '0' :: '3' :: 'e' :: []
  else if c == '&' then '\\' :: 'u' :: '0' :: '0' :: '2' :: '6' :: []
  else if c.toNat < 32 then '\\' :: 'u' :: '0' :: '0' :: hexByte c.toNat
  else [c]

/-- JSON string literal. -/
def jsonStr (s : String) : String :=
  String.mk (dquoteChar :: s.data.flatMap jsonEscapeChar ++ [dquoteChar])

/-- JSON boolean. -/
def jsonBool (b : Bool) : String :=
  if b then "true" else "false"

/-- JSON array from already-encoded elements. -/
def jsonArr (xs : List String) : String :=
  "[" ++ String.intercalate "," xs ++ "]"

/-- JSON encoding of a `Column` (field order and tags of the Go struct;
`default` carries `omitempty`). -/
def marshalColumn (c : Column) : String :=
  "\x7b" ++ jsonStr "name" ++ ":" ++ jsonStr c.name ++
  "," ++ jsonStr "type" ++ ":" ++ jsonStr c.type ++
  "," ++ jsonStr "nullable" ++ ":" ++ jsonBool c.nullable ++
  "," ++ jsonStr "primary_key" ++ ":" ++ jsonBool c.primaryKey ++
  "," ++ jsonStr "unique" ++ ":" ++ jsonBool c.unique ++
  (if c.default == "" then "" else "," ++ jsonStr "default" ++ ":" ++ jsonStr c.default) ++
  "\x7d"

/-- JSON encoding of an `Index`. -/
def marshalIndex (i : Index) : String :=
  "\x7b" ++ jsonStr "name" ++ ":" ++ jsonStr i.name ++
  "," ++ jsonStr "columns" ++ ":" ++ jsonArr (i.columns.map jsonStr) ++
  "," ++ jsonStr "unique" ++ ":" ++ jsonBool i.unique ++ "\x7d"

/-- JSON encoding of a `ForeignKey`. -/
def marshalFK (f : ForeignKey) : String :=
  "\x7b" ++ jsonStr "column" ++ ":" ++ jsonStr f.column ++
  "," ++ jsonStr "referenced_table" ++ ":" ++ jsonStr f.referencedTable ++
  "," ++ jsonStr "referenced_column" ++ ":" ++ jsonStr f.referencedColumn ++ "\x7d"

/-- JSON encoding of a `Table`. -/
def marshalTable (t : Table) : String :=
  "\x7b" ++ jsonStr "name" ++ ":" ++ jsonStr t.name ++
  "," ++ jsonStr "columns" ++ ":" ++ jsonArr (t.columns.map marshalColumn) ++
  "," ++ jsonStr "indexes" ++ ":" ++ jsonArr (t.indexes.map marshalIndex) ++
  "," ++ jsonStr "foreign_keys" ++ ":" ++ jsonArr (t.foreignKeys.map marshalFK) ++
  "\x7d"

/-- Key list of the table map in the sorted order Go's `encoding/json` uses
for map serialisation. -/
def sortedKeys (ts : List (String × Table)) : List String :=
  List.insertionSort strLE (ts.map Prod.fst)

/-- JSON encoding of the Go map `snapshot.Tables`: keys sorted, each value
looked up in the map. -/
def marshalTables (ts : List (String × Table)) : String :=
  "\x7b" ++
  String.intercalate ","
    ((sortedKeys ts).map fun k =>
      jsonStr k ++ ":" ++
      (match lookupTable ts k with
       | some t => marshalTable t
       | none => "null")) ++
  "\x7d"

/-- Go's `calculateChecksum`: SHA-256 of the JSON encoding of the table map,
as lowercase hex. -/
def calculateChecksum (snapshot : SchemaSnapshot) : String :=
  sha256hexBytes (strBytes (marshalTables snapshot.tables))

/-- Snapshot with two tables listed in one order. -/
def snapPermA : SchemaSnapshot :=
  { project := "demo", snapshotTime := 10, source := "/demo", gitCommit := ""
    checksum := ""
    tables := [("accounts",
      { name := "accounts"
        columns := [{ name := "id", type := "INT", nullable := false,
                      primaryKey := true, unique := false, default := "" }]
        indexes := [], foreignKeys := [] }),
      ("posts",
      { name := "posts"
        columns := [{ name := "body", type := "TEXT", nullable := true,
                      primaryKey := false, unique := false, default := "" }]
        indexes := [], foreignKeys := [] })]
    sourceFiles := [] }

/-- The same table mapping listed in the opposite order. -/
def snapPermB : SchemaSnapshot :=
  { snapPermA with tables := snapPermA.tables.reverse }

/-! ## Snapshot store (`saveSnapshot`, `loadLatestSnapshot`, `loadAllSnapshots`)

The catalog is a flat path-to-record store.  Since `encoding/json` is
external to the repository, the byte content of a stored file is abstracted
to its decode result: a record either unmarshals to a snapshot (`good`) or
fails to unmarshal (`bad`).  Write failures of the operating system are
modelled by a set of failing paths threaded into the operation, and
`os.MkdirAll` failures by a set of failing directories. -/

/-- Stored catalog file, abstracted to its JSON decode result. -/
inductive CatalogRec where
  | good : SchemaSnapshot → CatalogRec
  | bad : CatalogRec
deriving DecidableEq

/-- Catalog storage: a mapping from file paths to stored records. -/
structure Store where
  files : List (String × CatalogRec)
deriving DecidableEq

/-- Read a file from the store (`os.ReadFile` plus decode). -/
def getFile (st : Store) (p : String) : Option CatalogRec :=
  (st.files.find? (fun e => e.1 == p)).map Prod.snd

/-- Overwrite-or-create update of the path map. -/
def setFile : List (String × CatalogRec) → String → CatalogRec → List (String × CatalogRec)
  | [], p, r => [(p, r)]
  | (q, s) :: t, p, r => if q == p then (p, r) :: t else (q, s) :: setFile t p r

/-- Deletion of a path (`os.Remove`, which ignores absence here as the Go
code ignores its error). -/
def removeFile (st : Store) (p : String) : Store :=
  ⟨st.files.filter fun e => !(e.1 == p)⟩

/-- Fallible write (`os.WriteFile`): fails exactly on the given paths. -/
def writeFile (failPaths : List String) (st : Store) (p : String) (r : CatalogRec) :
    Option Store :=
  if p ∈ failPaths then none else some ⟨setFile st.files p r⟩

/-- Catalog root of `getCatalogDir` (`<home>/.claude/ram/librarian/catalog`,
with the home directory abstracted). -/
def catalogDir : String := "~/.claude/ram/librarian/catalog"

/-- Per-project catalog directory. -/
def projectDir (proj : String) : String := catalogDir ++ "/" ++ proj

/-- Timestamp-derived file-name key.  The Go code formats the snapshot time
with layout `2006-01-02-150405`; only injectivity and stability of the key
matter here, so the numeric timestamp is printed directly. -/
def timestampName (t : Nat) : String := toString t

/-- Path of the immutable, timestamp-named snapshot record. -/
def snapshotPath (s : SchemaSnapshot) : String :=
  projectDir s.project ++ "/schema-" ++ timestampName s.snapshotTime ++ ".json"

/-- Path of the mutable `schema-latest.json` alias record. -/
def latestPath (proj : String) : String :=
  projectDir proj ++ "/schema-latest.json"

/-- Go's `saveSnapshot`: create the project directory, write the immutable
timestamped record (returning on failure before touching anything else),
then remove and rewrite the `latest` alias.  The returned pair is the
resulting store and the error, `none` meaning success. -/
def saveSnapshot (failDirs failPaths : List String) (st : Store) (s : SchemaSnapshot) :
    Store × Option String :=
  if projectDir s.project ∈ failDirs then
    (st, some "failed to create catalog directory")
  else
    match writeFile failPaths st (snapshotPath s) (CatalogRec.good s) with
    | none => (st, some "failed to write snapshot file")
    | some st1 =>
      let st2 := removeFile st1 (latestPath s.project)
      match writeFile failPaths st2 (latestPath s.project) (CatalogRec.good s) with
      | none => (st2, some "failed to update latest snapshot")
      | some st3 => (st3, none)

/-- Go's `loadLatestSnapshot`: read and decode the `latest` alias, failing on
a read error or an unmarshal error. -/
def loadLatestSnapshot (st : Store) (proj : String) : Except String SchemaSnapshot :=
  match getFile st (latestPath proj) with
  | none => Except.error "failed to read latest snapshot"
  | some CatalogRec.bad => Except.error "failed to parse snapshot"
  | some (CatalogRec.good s) => Except.ok s

/-- Match of the glob pattern `<projectDir>/schema-*.json` on a path: the
literal prefix and suffix, with no path separator inside the starred part. -/
def globMatch (pdir p : String) : Bool :=
  let pre := (pdir ++ "/schema-").data
  leadsWith pre p.data &&
    (let mid := p.data.drop pre.length
     trailsWith ".json".data mid &&
       ((mid.take (mid.length - 5)).all fun c => !(c == '/')))

/-- Timestamp order used by the final sort of `loadAllSnapshots`
(`SnapshotTime.Before`). -/
def timeLE (a b : SchemaSnapshot) : Prop :=
  a.snapshotTime ≤ b.snapshotTime

instance : DecidableRel timeLE := fun a b => Nat.decLe a.snapshotTime b.snapshotTime

/-- Result list of Go's `loadAllSnapshots`: glob the project directory
(`filepath.Glob` returns matches in sorted order), skip paths containing
`latest`, skip records that fail to read or decode, and sort the survivors
by snapshot timestamp. -/
def snapshotRecords (st : Store) (pdir : String) : List SchemaSnapshot :=
  let files := List.insertionSort strLE
    ((st.files.map Prod.fst).filter (globMatch pdir))
  let recs := files.filterMap fun f =>
    if containsSub "latest".data f.data then none
    else
      match getFile st f with
      | some (CatalogRec.good s) => some s
      | _ => none
  List.insertionSort timeLE recs

/-- Go's `loadAllSnapshots`: the only error source is a malformed glob
pattern, which the fixed pattern never triggers, so the operation always
succeeds with the record list. -/
def loadAllSnapshots (st : Store) (pdir : String) : Except String (List SchemaSnapshot) :=
  Except.ok (snapshotRecords st pdir)

/-- Store used in the load counterexamples: one decodable and one
undecodable immutable record for project `demo`. -/
def stMixed : Store :=
  ⟨[(projectDir "demo" ++ "/schema-10.json", CatalogRec.good snapOld),
    (projectDir "demo" ++ "/schema-20.json", CatalogRec.bad)]⟩

/-- Snapshot of a project whose name contains the substring `latest`
(`scan` catalogs such a project like any other). -/
def snapLatestProj : SchemaSnapshot :=
  { project := "mylatest", snapshotTime := 10, source := "/mylatest"
    gitCommit := "", checksum := "", tables := [], sourceFiles := [] }

/-- Store holding one decodable immutable timestamp-named record for the
project `mylatest`. -/
def stLatestProj : Store :=
  ⟨[(projectDir "mylatest" ++ "/schema-10.json", CatalogRec.good snapLatestProj)]⟩

instance {ε α : Type} [DecidableEq ε] [DecidableEq α] : DecidableEq (Except ε α) := fun x y =>
  match x, y with
  | .ok a, .ok b =>
    if h : a = b then .isTrue (h ▸ rfl)
    else .isFalse (fun he => by cases he; exact h rfl)
  | .error a, .error b =>
    if h : a = b then .isTrue (h ▸ rfl)
    else .isFalse (fun he => by cases he; exact h rfl)
  | .ok _, .error _ => .isFalse (fun he => by cases he)
  | .error _, .ok _ => .isFalse (fun he => by cases he)

/-! ## Claim C8: schema discovery (`discoverSchemaFiles`)

`filepath.Walk` is recursive descent over the directory tree; the tree is a
mutual inductive (tree/forest) so that the walk is structural.  Returning
`filepath.SkipDir` on an excluded directory name prunes that subtree before
any of its entries are visited.  Visit order is lexical in Go; order is
irrelevant to the pruning claim. -/

mutual

inductive FTree where
  | file : String → FTree
  | dir : String → FForest → FTree

inductive FForest where
  | nil : FForest
  | cons : FTree → FForest → FForest

end

/-- Directory names pruned by the walk callback. -/
def excludedDir (n : String) : Bool :=
  n == "node_modules" || n == "vendor" || n == ".git" || n == "target" ||
  n == "build" || n == "dist"

/-- ASCII lower-casing of one character (Go's `strings.ToLower` on ASCII). -/
def lowerChar (c : Char) : Char :=
  if c ≥ 'A' && c ≤ 'Z' then Char.ofNat (c.toNat + 32) else c

/-- Go's `strings.ToLower` (ASCII range). -/
def lowerStr (s : String) : String :=
  String.mk (s.data.map lowerChar)

/-- File-inclusion heuristic of the walk callback: lowercased base name ends
in `.sql` or `.prisma`, or is exactly `schema.rb` or `models.py`, or the
lowercased parent directory name is `migrations` or `migrate`. -/
def isSchemaFile (fname parentDir : String) : Bool :=
  let lname := lowerStr fname
  let ldir := lowerStr parentDir
  trailsWith ".sql".data lname.data || trailsWith ".prisma".data lname.data ||
  lname == "schema.rb" || lname == "models.py" ||
  ldir == "migrations" || ldir == "migrate"

mutual

/-- Walk of one entry under parent path `pp` inside a directory named `pd`:
files are matched by the heuristic; excluded directories are pruned without
descending; other directories are descended into. -/
def walkEntry : FTree → String → String → List String
  | .file n, pp, pd => if isSchemaFile n pd then [pp ++ "/" ++ n] else []
  | .dir n cs, pp, _ => if excludedDir n then [] else walkForest cs (pp ++ "/" ++ n) n

/-- Walk of a forest of sibling entries. -/
def walkForest : FForest → String → String → List String
  | .nil, _, _ => []
  | .cons t ts, pp, pd => walkEntry t pp pd ++ walkForest ts pp pd

end

/-- Go's `discoverSchemaFiles` on the tree rooted at `t`, where `pp` is the
parent-path prefix of the root and `pd` the name of the root's parent
directory. -/
def discoverSchemaFiles (pp pd : String) (t : FTree) : List String :=
  walkEntry t pp pd

mutual

/-- All files of a tree with their chain of enclosing directory names. -/
def filesWithChains : FTree → List (List String × String)
  | .file n => [([], n)]
  | .dir n cs => (forestFiles cs).map fun p => (n :: p.1, p.2)

/-- All files of a forest with their directory chains. -/
def forestFiles : FForest → List (List String × String)
  | .nil => []
  | .cons t ts => filesWithChains t ++ forestFiles ts

end

/-- Path a file would get when walked from prefix `pp` through its chain. -/
def mkPath (pp : String) (chain : List String) (f : String) : String :=
  (chain.foldl (fun acc d => acc ++ "/" ++ d) pp) ++ "/" ++ f

/-- Walk output only contains files reachable through a chain free of
excluded directory names (statement for the tree half of the mutual
induction). -/
def WalkSpec (t : FTree) : Prop :=
  ∀ pp pd x, x ∈ walkEntry t pp pd →
    ∃ chain f, (chain, f) ∈ filesWithChains t ∧
      (∀ d ∈ chain, excludedDir d = false) ∧ x = mkPath pp chain f

/-- Forest half of the mutual induction statement. -/
def WalkSpecF (cs : FForest) : Prop :=
  ∀ pp pd x, x ∈ walkForest cs pp pd →
    ∃ chain f, (chain, f) ∈ forestFiles cs ∧
      (∀ d ∈ chain, excludedDir d = false) ∧ x = mkPath pp chain f

/-! ## Theorems -/
/-- Generic key-based `find?` over a list with `Nodup` keys finds exactly the
member with that key. -/
theorem find?_key_eq_some_of_mem {α : Type} (key : α → String) :
    ∀ (l : List α), (l.map key).Nodup → ∀ a ∈ l,
      l.find? (fun x => key x == key a) = some a := by
  intro l
  induction l with
  | nil => intro _ a ha; cases ha
  | cons b t ih =>
    intro hnd a ha
    rw [List.map_cons, List.nodup_cons] at hnd
    rcases List.mem_cons.mp ha with h | h
    · subst h
      exact List.find?_cons_of_pos t (by simp)
    · have hne : (key b == key a) = false := by
        refine beq_eq_false_iff_ne.mpr fun he => hnd.1 ?_
        exact he ▸ List.mem_map_of_mem key h
      rw [List.find?_cons_of_neg t (by simp [hne]), ih hnd.2 a h]

/-- Lookup of a member's key in a `Nodup`-keyed table list returns that
member's table. -/
theorem lookupTable_of_mem {ts : List (String × Table)}
    (hk : (ts.map Prod.fst).Nodup) {p : String × Table} (hp : p ∈ ts) :
    lookupTable ts p.1 = some p.2 := by
  unfold lookupTable
  rw [find?_key_eq_some_of_mem Prod.fst ts hk p hp]
  rfl

/-- Successful lookup means the pair is a member. -/
theorem mem_of_lookupTable {ts : List (String × Table)} {k : String} {t : Table}
    (h : lookupTable ts k = some t) : (k, t) ∈ ts := by
  unfold lookupTable at h
  rcases Option.map_eq_some'.mp h with ⟨q, hfind, hsnd⟩
  have hkey := List.find?_some hfind
  have hmem := List.mem_of_find?_eq_some hfind
  have : q = (k, t) := by
    rcases q with ⟨a, b⟩
    simp only at hsnd
    simp only [beq_iff_eq] at hkey
    rw [hkey, hsnd]
  exact this ▸ hmem

/-- Failed lookup characterised by the key set. -/
theorem lookupTable_eq_none_iff {ts : List (String × Table)} {k : String} :
    lookupTable ts k = none ↔ k ∉ ts.map Prod.fst := by
  unfold lookupTable
  rw [Option.map_eq_none', List.find?_eq_none]
  constructor
  · intro h hk
    rcases List.mem_map.mp hk with ⟨p, hp, hpk⟩
    exact h p hp (by simp [hpk])
  · intro h p hp hpk
    exact h (List.mem_map.mpr ⟨p, hp, by simpa using hpk⟩)

/-- Successful lookup characterised by the key set. -/
theorem lookupTable_isSome_iff {ts : List (String × Table)} {k : String} :
    (lookupTable ts k).isSome = true ↔ k ∈ ts.map Prod.fst := by
  rcases h : lookupTable ts k with _ | t
  · simpa using (lookupTable_eq_none_iff).mp h
  · simp only [Option.isSome_some, true_iff]
    exact List.mem_map.mpr ⟨(k, t), mem_of_lookupTable h, rfl⟩

/-- Membership of a column makes the `oldCols` lookup succeed. -/
theorem colFind_isSome_of_mem {cols : List Column} {c : Column} (hc : c ∈ cols) :
    (colFind cols c.name).isSome = true := by
  unfold colFind
  exact List.find?_isSome.mpr ⟨c, List.mem_reverse.mpr hc, by simp⟩

/-- With unique column names, the `oldCols` lookup of a member's name returns
that member. -/
theorem colFind_of_mem {cols : List Column} (h : (cols.map Column.name).Nodup)
    {c : Column} (hc : c ∈ cols) : colFind cols c.name = some c := by
  unfold colFind
  have hrev : (cols.reverse.map Column.name).Nodup := by
    rw [List.map_reverse, List.nodup_reverse]; exact h
  exact find?_key_eq_some_of_mem Column.name cols.reverse hrev c
    (List.mem_reverse.mpr hc)

/-! ## Claim C6: diff identity -/

/-- C6: for every snapshot `S` (well formed: unique table keys and unique
column names per table, as the Go maps and the data model guarantee),
`compareSnapshots S S` has empty `Added`, `Modified` and `Removed`. -/
theorem diff_identity (S : SchemaSnapshot)
    (hk : keysNodup S) (hc : tableColsNodup S) :
    compareSnapshots S S = { added := [], modified := [], removed := [] } := by
  unfold compareSnapshots
  simp only [SchemaDiff.mk.injEq]
  refine ⟨?_, ?_, ?_⟩
  · rw [diffAdded, List.flatMap_eq_nil_iff]
    intro p hp
    rw [lookupTable_of_mem hk hp]
    unfold colAdded
    rw [List.filterMap_eq_nil_iff]
    intro nc hnc
    simp [colFind_isSome_of_mem hnc]
  · rw [diffModified, List.flatMap_eq_nil_iff]
    intro p hp
    rw [lookupTable_of_mem hk hp]
    unfold colModified
    rw [List.filterMap_eq_nil_iff]
    intro nc hnc
    rw [colFind_of_mem (hc p hp) hnc]
    simp
  · rw [diffRemoved, List.append_eq_nil]
    constructor
    · rw [List.flatMap_eq_nil_iff]
      intro p hp
      rw [lookupTable_of_mem hk hp]
      unfold colRemoved
      rw [List.filterMap_eq_nil_iff]
      intro oc hoc
      have : p.2.columns.any (fun c => c.name == oc.name) = true :=
        List.any_eq_true.mpr ⟨oc, hoc, by simp⟩
      simp [this]
    · rw [List.filterMap_eq_nil_iff]
      intro p hp
      have : (lookupTable S.tables p.1).isSome = true :=
        lookupTable_isSome_iff.mpr (List.mem_map.mpr ⟨p, hp, rfl⟩)
      simp [this]

/-- Witness for C6 at a concrete snapshot. -/
theorem diff_identity_witness :
    compareSnapshots snapNew snapNew = { added := [], modified := [], removed := [] } :=
  diff_identity snapNew (by decide) (by decide)

theorem cleanNames_key {s : SchemaSnapshot} (h : cleanNames s = true)
    {p : String × Table} (hp : p ∈ s.tables) : cleanName p.1 = true := by
  unfold cleanNames at h
  rw [List.all_eq_true] at h
  exact (Bool.and_eq_true _ _ ▸ h p hp).1

theorem cleanNames_col {s : SchemaSnapshot} (h : cleanNames s = true)
    {p : String × Table} (hp : p ∈ s.tables) :
    ∀ c ∈ p.2.columns, cleanName c.name = true := by
  unfold cleanNames at h
  rw [List.all_eq_true] at h
  have := (Bool.and_eq_true _ _ ▸ h p hp).2
  rw [List.all_eq_true] at this
  exact this

/-- Clean names contain no space. -/
theorem cleanName_no_space {s : String} (h : cleanName s = true) :
    (s.data.all fun c => !(c == ' ')) = true := by
  unfold cleanName at h
  rw [List.all_eq_true] at h ⊢
  intro c hc
  have := h c hc
  simp only [Bool.not_eq_true', Bool.or_eq_false_iff] at this
  simp [this.1]

/-- Clean names do not start with an opening parenthesis. -/
theorem cleanName_head {s : String} (h : cleanName s = true) :
    (s.data.head? == some '(') = false := by
  unfold cleanName at h
  rw [List.all_eq_true] at h
  cases hd : s.data with
  | nil => rfl
  | cons c cs =>
    have := h c (hd ▸ List.mem_cons_self c cs)
    simp only [Bool.not_eq_true', Bool.or_eq_false_iff] at this
    simp [this.2]

theorem stripChars_cons_ne {c : Char} (cs : List Char) (h : (c == ' ') = false) :
    stripChars (c :: cs) = c :: stripChars cs := by
  simp [stripChars, h]

/-- A list without spaces is left unchanged by `stripChars`. -/
theorem stripChars_no_space : ∀ {l : List Char},
    (l.all fun c => !(c == ' ')) = true → stripChars l = l := by
  intro l
  induction l with
  | nil => intro _; rfl
  | cons c cs ih =>
    intro h
    rw [List.all_cons, Bool.and_eq_true] at h
    have hc : (c == ' ') = false := by
      rcases h with ⟨h1, _⟩
      simpa using h1
    rw [stripChars_cons_ne cs hc, ih h.2]

/-- `stripChars` truncates at an explicit `" ("` once the part before it has
no spaces. -/
theorem stripChars_append : ∀ {l₁ : List Char},
    (l₁.all fun c => !(c == ' ')) = true → ∀ (l₂ : List Char),
    stripChars (l₁ ++ ' ' :: '(' :: l₂) = l₁ := by
  intro l₁
  induction l₁ with
  | nil => intro _ l₂; simp [stripChars]
  | cons c cs ih =>
    intro h l₂
    rw [List.all_cons, Bool.and_eq_true] at h
    have hc : (c == ' ') = false := by
      rcases h with ⟨h1, _⟩
      simpa using h1
    rw [List.cons_append, stripChars_cons_ne _ hc, ih h.2 l₂]

/-- Whole-table descriptors are untouched by annotation stripping. -/
theorem stripDesc_table {n : String} (h : cleanName n = true) :
    stripDesc ("table: " ++ n) = "table: " ++ n := by
  unfold stripDesc
  rw [String.data_append]
  have hdata : ("table: " : String).data = ['t', 'a', 'b', 'l', 'e', ':', ' '] := rfl
  rw [hdata]
  have hsp : stripChars (' ' :: n.data) = ' ' :: stripChars n.data := by
    rw [stripChars]
    have := cleanName_head h
    simp [this]
  simp only [List.cons_append, List.nil_append]
  rw [stripChars_cons_ne _ (by decide), stripChars_cons_ne _ (by decide),
      stripChars_cons_ne _ (by decide), stripChars_cons_ne _ (by decide),
      stripChars_cons_ne _ (by decide), stripChars_cons_ne _ (by decide),
      hsp, stripChars_no_space (cleanName_no_space h)]
  rfl

/-- Column-addition descriptors strip to the corresponding removal
descriptors. -/
theorem stripDesc_column {t c ty : String} (ht : cleanName t = true)
    (hc : cleanName c = true) :
    stripDesc (t ++ "." ++ c ++ " (" ++ ty ++ ")") = t ++ "." ++ c := by
  unfold stripDesc
  have hdata : (t ++ "." ++ c ++ " (" ++ ty ++ ")").data =
      (t.data ++ '.' :: c.data) ++ ' ' :: '(' :: (ty.data ++ [')']) := by
    simp only [String.data_append]
    simp [List.append_assoc]
  rw [hdata]
  have hall : ((t.data ++ '.' :: c.data).all fun d => !(d == ' ')) = true := by
    rw [List.all_append, List.all_cons]
    rw [cleanName_no_space ht, cleanName_no_space hc]
    rfl
  rw [stripChars_append hall]
  have : (t ++ "." ++ c).data = t.data ++ '.' :: c.data := by
    simp only [String.data_append]
    simp
  rw [← this]

/-- Boolean agreement of the two column-membership tests that
`compareSnapshots` uses (`oldCols` map lookup versus `newCols` name set). -/
theorem colFind_isSome_eq_any (cols : List Column) (n : String) :
    (colFind cols n).isSome = cols.any fun c => c.name == n := by
  rw [Bool.eq_iff_iff]
  unfold colFind
  rw [List.find?_isSome, List.any_eq_true]
  constructor
  · rintro ⟨c, hc, hn⟩
    exact ⟨c, List.mem_reverse.mp hc, hn⟩
  · rintro ⟨c, hc, hn⟩
    exact ⟨c, List.mem_reverse.mpr hc, hn⟩

/-- Stripping the type annotations from the column additions of
`compare(A, B)` yields exactly the column removals of `compare(B, A)`,
table by table. -/
theorem strip_colAdded {t : String} {oldT newT : Table}
    (ht : cleanName t = true) (hcols : ∀ c ∈ newT.columns, cleanName c.name = true) :
    (colAdded t oldT newT).map stripDesc = colRemoved t newT oldT := by
  unfold colAdded colRemoved
  rw [List.map_filterMap]
  apply List.filterMap_congr
  intro nc hnc
  rw [colFind_isSome_eq_any]
  rcases hany : oldT.columns.any fun c => c.name == nc.name with _ | _
  · simp only [Bool.false_eq_true, if_false, Option.map_some']
    rw [stripDesc_column ht (hcols nc hnc)]
  · simp

/-- C1 (amended): for snapshots with unique table keys and hygienic names in
`B` (as extraction produces), the `Added` descriptors of `compare(A, B)`
with their type annotations stripped form, as a set, exactly the `Removed`
descriptors of `compare(B, A)` — table-level entries verbatim, column-level
entries after dropping the ` (<type>)` suffix. -/
theorem diff_asymmetry_amended (A B : SchemaSnapshot)
    (hA : keysNodup A) (hB : keysNodup B) (hBclean : cleanNames B = true) :
    ∀ x, x ∈ (compareSnapshots A B).added.map stripDesc ↔
         x ∈ (compareSnapshots B A).removed := by
  intro x
  show x ∈ (diffAdded A B).map stripDesc ↔ x ∈ diffRemoved B A
  unfold diffAdded diffRemoved
  rw [List.mem_map]
  constructor
  · rintro ⟨y, hy, hxy⟩
    rw [List.mem_flatMap] at hy
    rcases hy with ⟨p, hp, hyp⟩
    rw [List.mem_append]
    rcases hlook : lookupTable A.tables p.1 with _ | aT
    · rw [hlook] at hyp
      rcases List.mem_singleton.mp hyp with rfl
      right
      rw [List.mem_filterMap]
      refine ⟨p, hp, ?_⟩
      have hnone : (lookupTable A.tables p.1).isSome = false := by
        rw [hlook]; rfl
      have hx : x = "table: " ++ p.1 := by
        rw [← hxy, stripDesc_table (cleanNames_key hBclean hp)]
      simp [hnone, hx]
    · rw [hlook] at hyp
      left
      rw [List.mem_flatMap]
      refine ⟨(p.1, aT), mem_of_lookupTable hlook, ?_⟩
      have hBlook : lookupTable B.tables p.1 = some p.2 := lookupTable_of_mem hB hp
      show x ∈ match lookupTable B.tables (p.1, aT).1 with
        | none => []
        | some oldT => colRemoved (p.1, aT).1 oldT (p.1, aT).2
      have hyp2 : y ∈ colAdded p.1 aT p.2 := hyp
      have : x ∈ colRemoved p.1 p.2 aT := by
        rw [← strip_colAdded (cleanNames_key hBclean hp) (cleanNames_col hBclean hp)]
        exact hxy ▸ List.mem_map_of_mem stripDesc hyp2
      simpa [hBlook] using this
  · intro hx
    rw [List.mem_append] at hx
    rcases hx with hx | hx
    · rw [List.mem_flatMap] at hx
      rcases hx with ⟨q, hq, hxq⟩
      rcases hlook : lookupTable B.tables q.1 with _ | bT
      · rw [hlook] at hxq; cases hxq
      · rw [hlook] at hxq
        have hxq2 : x ∈ colRemoved q.1 bT q.2 := hxq
        have hpB : (q.1, bT) ∈ B.tables := mem_of_lookupTable hlook
        have hA2 : lookupTable A.tables q.1 = some q.2 := lookupTable_of_mem hA hq
        have hx2 : x ∈ (colAdded q.1 q.2 bT).map stripDesc := by
          rw [strip_colAdded (cleanNames_key hBclean hpB)
            (cleanNames_col hBclean hpB)]
          exact hxq2
        rw [List.mem_map] at hx2
        rcases hx2 with ⟨y, hy, hxy⟩
        refine ⟨y, ?_, hxy⟩
        rw [List.mem_flatMap]
        refine ⟨(q.1, bT), hpB, ?_⟩
        simpa [hA2] using hy
    · rw [List.mem_filterMap] at hx
      rcases hx with ⟨p, hp, hcond⟩
      rcases hlook : (lookupTable A.tables p.1).isSome with _ | _
      · rw [hlook] at hcond
        simp only [Bool.false_eq_true, if_false, Option.some.injEq] at hcond
        have hnone : lookupTable A.tables p.1 = none :=
          Option.not_isSome_iff_eq_none.mp (by rw [hlook]; exact Bool.false_ne_true)
        refine ⟨"table: " ++ p.1, ?_, ?_⟩
        · rw [List.mem_flatMap]
          refine ⟨p, hp, ?_⟩
          simp [hnone]
        · rw [stripDesc_table (cleanNames_key hBclean hp), hcond]
      · rw [hlook] at hcond
        cases hcond

/-- C1 counterexample to the claim as stated: at these two snapshots the
`Added` set of `compare(old, new)` contains `users.email (TEXT)` while the
`Removed` set of `compare(new, old)` does not (it contains `users.email`),
so the two sets differ. -/
theorem diff_asymmetry_counterexample :
    "users.email (TEXT)" ∈ (compareSnapshots snapOld snapNew).added ∧
    "users.email (TEXT)" ∉ (compareSnapshots snapNew snapOld).removed := by
  decide

/-- Witness for the amended C1 at concrete snapshots. -/
theorem diff_asymmetry_amended_witness :
    ("users.email" ∈ (compareSnapshots snapOld snapNew).added.map stripDesc ↔
     "users.email" ∈ (compareSnapshots snapNew snapOld).removed) :=
  diff_asymmetry_amended snapOld snapNew (by decide) (by decide) (by decide)
    "users.email"

/-! ## Claims C9, C10, C4: extractor properties -/

/-- C9: every column the extractor produces has `nullable = false` whenever
`primaryKey = true` (the branch that sets the primary-key flag also clears
nullability, and the `NOT NULL` branch only clears it further). -/
theorem primary_key_not_nullable (s : String) :
    ∀ col ∈ parseColumns s, col.primaryKey = true → col.nullable = false := by
  intro col hcol hpk
  rcases List.mem_filterMap.mp hcol with ⟨frag, _, hparse⟩
  unfold parseColumnL at hparse
  dsimp only at hparse
  split at hparse
  · cases hparse
  · split at hparse
    · injection hparse with h
      subst h
      simp only at hpk ⊢
      simp [hpk]
    · cases hparse

/-- Witness for C9 at a concrete fragment. -/
theorem primary_key_not_nullable_witness :
    (({ name := "id", type := "INT", nullable := false, primaryKey := true,
        unique := false, default := "" } : Column) ∈ parseColumns "id INT PRIMARY KEY" ∧
     ({ name := "id", type := "INT", nullable := false, primaryKey := true,
        unique := false, default := "" } : Column).primaryKey = true) ∧
    ({ name := "id", type := "INT", nullable := false, primaryKey := true,
       unique := false, default := "" } : Column).nullable = false :=
  ⟨⟨by decide, by decide⟩,
   primary_key_not_nullable "id INT PRIMARY KEY" _ (by decide) (by decide)⟩

/-- C10: the constraint-clause test is a raw prefix check on the uppercased
trimmed fragment, so any fragment starting (case-insensitively) with `KEY`,
`UNIQUE`, `INDEX` or `CONSTRAINT` — including column definitions such as
`keyword TEXT` or `index_id INT` — is discarded and contributes no column. -/
theorem constraint_prefix_discards (s : String)
    (h : leadsWith "KEY".data (upperL (trimSpaceL s.data)) = true ∨
         leadsWith "UNIQUE".data (upperL (trimSpaceL s.data)) = true ∨
         leadsWith "INDEX".data (upperL (trimSpaceL s.data)) = true ∨
         leadsWith "CONSTRAINT".data (upperL (trimSpaceL s.data)) = true) :
    parseColumnL s.data = none := by
  unfold parseColumnL
  rcases h with h | h | h | h <;> simp [h]

/-- Witness for C10: the column definition `keyword TEXT` begins with `KEY`
after uppercasing and is silently dropped. -/
theorem constraint_prefix_discards_witness :
    (leadsWith "KEY".data (upperL (trimSpaceL ("keyword TEXT" : String).data)) = true ∨
     leadsWith "UNIQUE".data (upperL (trimSpaceL ("keyword TEXT" : String).data)) = true ∨
     leadsWith "INDEX".data (upperL (trimSpaceL ("keyword TEXT" : String).data)) = true ∨
     leadsWith "CONSTRAINT".data (upperL (trimSpaceL ("keyword TEXT" : String).data)) = true) ∧
    parseColumnL ("keyword TEXT" : String).data = none :=
  ⟨Or.inl (by decide), constraint_prefix_discards "keyword TEXT" (Or.inl (by decide))⟩

/-- C4: the edge-case source extracts exactly one table `sessions` with the
three columns `id` (primary key, not nullable), `token` (not nullable) and
`created_at` (default `NOW()`, nullable). -/
theorem extraction_edge_case :
    parseSQLSchema sessionsSQL =
      [{ name := "sessions"
         columns :=
           [{ name := "id", type := "VARCHAR(36)", nullable := false,
              primaryKey := true, unique := false, default := "" },
            { name := "token", type := "TEXT", nullable := false,
              primaryKey := false, unique := false, default := "" },
            { name := "created_at", type := "TIMESTAMP", nullable := true,
              primaryKey := false, unique := false, default := "NOW()" }]
         indexes := []
         foreignKeys := [] }] := by
  decide

theorem listCharLE_total : ∀ (a b : List Char),
    listCharLE a b = true ∨ listCharLE b a = true := by
  intro a
  induction a with
  | nil => intro b; left; rfl
  | cons x xs ih =>
    intro b
    cases b with
    | nil => right; rfl
    | cons y ys =>
      by_cases hxy : x = y
      · subst hxy
        simp only [listCharLE, beq_self_eq_true, if_true]
        exact ih ys
      · have h1 : (x == y) = false := beq_eq_false_iff_ne.mpr hxy
        have h2 : (y == x) = false := beq_eq_false_iff_ne.mpr (Ne.symm hxy)
        simp only [listCharLE, h1, h2, Bool.false_eq_true, if_false]
        rcases lt_or_gt_of_ne hxy with h | h
        · left; exact decide_eq_true h
        · right; exact decide_eq_true h

theorem listCharLE_trans : ∀ (a b c : List Char), listCharLE a b = true →
    listCharLE b c = true → listCharLE a c = true := by
  intro a
  induction a with
  | nil => intro b c h1 h2; rfl
  | cons x xs ih =>
    intro b c h1 h2
    cases b with
    | nil => simp [listCharLE] at h1
    | cons y ys =>
      cases c with
      | nil => simp [listCharLE] at h2
      | cons z zs =>
        by_cases hxy : x = y
        · subst hxy
          simp only [listCharLE, beq_self_eq_true, if_true] at h1
          by_cases hxz : x = z
          · subst hxz
            simp only [listCharLE, beq_self_eq_true, if_true] at h2 ⊢
            exact ih ys zs h1 h2
          · have hb : (x == z) = false := beq_eq_false_iff_ne.mpr hxz
            simp only [listCharLE, hb, Bool.false_eq_true, if_false] at h2 ⊢
            exact h2
        · have hxyb : (x == y) = false := beq_eq_false_iff_ne.mpr hxy
          simp only [listCharLE, hxyb, Bool.false_eq_true, if_false] at h1
          have hlt1 : x < y := of_decide_eq_true h1
          by_cases hyz : y = z
          · subst hyz
            have hxzb : (x == y) = false := beq_eq_false_iff_ne.mpr hxy
            simp only [listCharLE, hxzb, Bool.false_eq_true, if_false]
            exact h1
          · have hyzb : (y == z) = false := beq_eq_false_iff_ne.mpr hyz
            simp only [listCharLE, hyzb, Bool.false_eq_true, if_false] at h2
            have hlt2 : y < z := of_decide_eq_true h2
            have hxz : x < z := lt_trans hlt1 hlt2
            have hxzb : (x == z) = false := beq_eq_false_iff_ne.mpr (ne_of_lt hxz)
            simp only [listCharLE, hxzb, Bool.false_eq_true, if_false]
            exact decide_eq_true hxz

theorem listCharLE_antisymm : ∀ (a b : List Char), listCharLE a b = true →
    listCharLE b a = true → a = b := by
  intro a
  induction a with
  | nil =>
    intro b h1 h2
    cases b with
    | nil => rfl
    | cons y ys => simp [listCharLE] at h2
  | cons x xs ih =>
    intro b h1 h2
    cases b with
    | nil => simp [listCharLE] at h1
    | cons y ys =>
      by_cases hxy : x = y
      · subst hxy
        simp only [listCharLE, beq_self_eq_true, if_true] at h1 h2
        rw [ih ys h1 h2]
      · have h1b : (x == y) = false := beq_eq_false_iff_ne.mpr hxy
        have h2b : (y == x) = false := beq_eq_false_iff_ne.mpr (Ne.symm hxy)
        simp only [listCharLE, h1b, Bool.false_eq_true, if_false] at h1
        simp only [listCharLE, h2b, Bool.false_eq_true, if_false] at h2
        exact absurd (of_decide_eq_true h1) (not_lt_of_gt (of_decide_eq_true h2))

instance : IsTotal String strLE :=
  ⟨fun a b => listCharLE_total a.data b.data⟩

instance : IsTrans String strLE :=
  ⟨fun a b c => listCharLE_trans a.data b.data c.data⟩

instance : IsAntisymm String strLE :=
  ⟨fun a b h1 h2 => by
    have hd := listCharLE_antisymm a.data b.data h1 h2
    cases a; cases b
    exact congrArg String.mk hd⟩

/-- C2: snapshots whose table mappings are equal as mappings — same entries,
possibly inserted (listed) in different orders — get the same checksum. -/
theorem checksum_deterministic (s₁ s₂ : SchemaSnapshot)
    (hn : keysNodup s₁) (hp : s₁.tables.Perm s₂.tables) :
    calculateChecksum s₁ = calculateChecksum s₂ := by
  unfold calculateChecksum
  have hmarshal : marshalTables s₁.tables = marshalTables s₂.tables := by
    have hkeys : (s₁.tables.map Prod.fst).Perm (s₂.tables.map Prod.fst) :=
      hp.map Prod.fst
    have hn₂ : keysNodup s₂ := hkeys.nodup_iff.mp hn
    have hks : sortedKeys s₁.tables = sortedKeys s₂.tables := by
      unfold sortedKeys
      refine List.eq_of_perm_of_sorted
        ((List.perm_insertionSort _ _).trans
          (hkeys.trans (List.perm_insertionSort _ _).symm))
        (List.sorted_insertionSort _ _) (List.sorted_insertionSort _ _)
    have hlook : ∀ k, lookupTable s₁.tables k = lookupTable s₂.tables k := by
      intro k
      rcases h1 : lookupTable s₁.tables k with _ | t
      · rw [lookupTable_eq_none_iff] at h1
        have : k ∉ s₂.tables.map Prod.fst := fun hk => h1 (hkeys.mem_iff.mpr hk)
        exact (lookupTable_eq_none_iff.mpr this).symm
      · have hm : (k, t) ∈ s₂.tables := hp.subset (mem_of_lookupTable h1)
        exact (lookupTable_of_mem hn₂ hm).symm
    unfold marshalTables
    rw [hks]
    congr 2
    congr 1
    apply List.map_congr_left
    intro k _
    rw [hlook k]
  rw [hmarshal]

/-- Witness for C2 at two concretely reordered snapshots. -/
theorem checksum_deterministic_witness :
    calculateChecksum snapPermA = calculateChecksum snapPermB :=
  checksum_deterministic snapPermA snapPermB (by decide)
    (List.reverse_perm snapPermA.tables).symm

instance : IsTotal SchemaSnapshot timeLE := ⟨fun x y => Nat.le_total x.snapshotTime y.snapshotTime⟩

instance : IsTrans SchemaSnapshot timeLE := ⟨fun _ _ _ => Nat.le_trans⟩

/-- Successful store read means the pair is a member of the path map. -/
theorem mem_of_getFile {st : Store} {p : String} {r : CatalogRec}
    (h : getFile st p = some r) : (p, r) ∈ st.files := by
  unfold getFile at h
  rcases Option.map_eq_some'.mp h with ⟨q, hfind, hsnd⟩
  have hkey := List.find?_some hfind
  have hmem := List.mem_of_find?_eq_some hfind
  have : q = (p, r) := by
    rcases q with ⟨a, b⟩
    simp only at hsnd
    simp only [beq_iff_eq] at hkey
    rw [hkey, hsnd]
  exact this ▸ hmem

/-- Characterisation of the history listing: a snapshot is returned exactly
when some path matching the glob, not containing `latest`, stores it as a
decodable record. -/
theorem mem_snapshotRecords (st : Store) (pdir : String) (s : SchemaSnapshot) :
    s ∈ snapshotRecords st pdir ↔
      ∃ p, globMatch pdir p = true ∧ containsSub "latest".data p.data = false ∧
        getFile st p = some (CatalogRec.good s) := by
  unfold snapshotRecords
  rw [(List.perm_insertionSort timeLE _).mem_iff, List.mem_filterMap]
  constructor
  · rintro ⟨f, hf, hcond⟩
    have hf2 : f ∈ (st.files.map Prod.fst).filter (globMatch pdir) :=
      (List.perm_insertionSort _ _).subset hf
    rw [List.mem_filter] at hf2
    by_cases hl : containsSub "latest".data f.data = true
    · rw [if_pos hl] at hcond; cases hcond
    · rw [if_neg hl] at hcond
      rcases hg : getFile st f with _ | r
      · rw [hg] at hcond; cases hcond
      · rcases r with s2 | _
        · rw [hg] at hcond
          injection hcond with h2
          subst h2
          exact ⟨f, hf2.2, Bool.not_eq_true _ ▸ Bool.of_not_eq_true hl, hg⟩
        · rw [hg] at hcond; cases hcond
  · rintro ⟨p, hglob, hlat, hget⟩
    refine ⟨p, ?_, ?_⟩
    · apply (List.perm_insertionSort _ _).mem_iff.mpr
      rw [List.mem_filter]
      exact ⟨List.mem_map.mpr ⟨(p, CatalogRec.good s), mem_of_getFile hget, rfl⟩, hglob⟩
    · rw [if_neg (by simp [hlat]), hget]

/-! ## Claims C3, C5, C7: store behaviour -/

/-- C3: when the write of the immutable timestamp-named record fails (and the
directory creation succeeded), `saveSnapshot` returns the error immediately
and the store — in particular the project's `latest` record — is completely
untouched; `latest` is only rewritten after the immutable write succeeded. -/
theorem save_aborts_before_latest (failDirs failPaths : List String)
    (st : Store) (s : SchemaSnapshot)
    (hdir : projectDir s.project ∉ failDirs)
    (hfail : snapshotPath s ∈ failPaths) :
    saveSnapshot failDirs failPaths st s = (st, some "failed to write snapshot file") := by
  unfold saveSnapshot
  rw [if_neg hdir]
  unfold writeFile
  rw [if_pos hfail]

/-- Witness for C3: a concrete store in which the immutable record write
fails and the stored `latest` record survives unchanged. -/
theorem save_aborts_before_latest_witness :
    saveSnapshot [] [snapshotPath snapNew]
        ⟨[(latestPath "demo", CatalogRec.good snapOld)]⟩ snapNew =
      (⟨[(latestPath "demo", CatalogRec.good snapOld)]⟩,
       some "failed to write snapshot file") :=
  save_aborts_before_latest [] [snapshotPath snapNew]
    ⟨[(latestPath "demo", CatalogRec.good snapOld)]⟩ snapNew
    (by decide) (by decide)

/-- C5 counterexample to the claim as stated: `loadAllSnapshots` meets an
undecodable stored record yet succeeds, skipping it and returning the
partial result instead of an error. -/
theorem load_skips_undecodable_counterexample :
    loadAllSnapshots stMixed (projectDir "demo") = Except.ok [snapOld] := by
  decide

/-- C5 (amended): a decode failure is fatal for `loadLatestSnapshot`, which
propagates an error; but `loadAllSnapshots` never fails on a decode error —
it skips undecodable records and returns the decodable ones. -/
theorem load_decode_failure_amended :
    (∀ st proj, getFile st (latestPath proj) = some CatalogRec.bad →
        loadLatestSnapshot st proj = Except.error "failed to parse snapshot") ∧
    (∀ st pdir, loadAllSnapshots st pdir = Except.ok (snapshotRecords st pdir)) ∧
    (∀ st pdir s, s ∈ snapshotRecords st pdir →
        ∃ p, getFile st p = some (CatalogRec.good s)) := by
  refine ⟨?_, ?_, ?_⟩
  · intro st proj h
    unfold loadLatestSnapshot
    rw [h]
  · intro st pdir
    rfl
  · intro st pdir s hs
    rcases (mem_snapshotRecords st pdir s).mp hs with ⟨p, _, _, hget⟩
    exact ⟨p, hget⟩

/-- Witness for the amended C5 at the concrete mixed store. -/
theorem load_decode_failure_amended_witness :
    loadLatestSnapshot ⟨[(latestPath "demo", CatalogRec.bad)]⟩ "demo" =
      Except.error "failed to parse snapshot" :=
  load_decode_failure_amended.1 ⟨[(latestPath "demo", CatalogRec.bad)]⟩ "demo"
    (by decide)

/-- C7 counterexample to the claim as stated: for the project `mylatest`,
an immutable timestamp-named record exists — it matches the glob and is not
the `latest` alias path — yet the history listing returns nothing, because
the skip is `strings.Contains(file, "latest")` on the whole path, not a
check against the alias record. -/
theorem load_history_counterexample :
    globMatch (projectDir "mylatest") (projectDir "mylatest" ++ "/schema-10.json") = true ∧
    (projectDir "mylatest" ++ "/schema-10.json") ≠ latestPath "mylatest" ∧
    getFile stLatestProj (projectDir "mylatest" ++ "/schema-10.json") =
      some (CatalogRec.good snapLatestProj) ∧
    snapshotRecords stLatestProj (projectDir "mylatest") = [] := by
  decide

/-- C7 (amended): the history listing succeeds, is sorted by snapshot
timestamp ascending, and contains exactly the decodable records stored at
glob-matching paths whose full path does not contain the substring
`latest` — an exclusion that removes the `latest` alias record, but also
drops every immutable record of a project whose path contains `latest`. -/
theorem load_history_sorted_complete (st : Store) (pdir : String) :
    loadAllSnapshots st pdir = Except.ok (snapshotRecords st pdir) ∧
    List.Sorted timeLE (snapshotRecords st pdir) ∧
    ∀ s, s ∈ snapshotRecords st pdir ↔
      ∃ p, globMatch pdir p = true ∧ containsSub "latest".data p.data = false ∧
        getFile st p = some (CatalogRec.good s) := by
  refine ⟨rfl, ?_, fun s => mem_snapshotRecords st pdir s⟩
  unfold snapshotRecords
  exact List.sorted_insertionSort timeLE _

theorem walkSpec_file (n : String) : WalkSpec (.file n) := by
  intro pp pd x hx
  unfold walkEntry at hx
  split at hx
  · rcases List.mem_singleton.mp hx with rfl
    refine ⟨[], n, List.mem_singleton.mpr rfl, ?_, rfl⟩
    intro d hd
    cases hd
  · cases hx

theorem walkSpec_dir (n : String) (cs : FForest) (ih : WalkSpecF cs) :
    WalkSpec (.dir n cs) := by
  intro pp pd x hx
  unfold walkEntry at hx
  split at hx
  · cases hx
  · rename_i hex
    rcases ih (pp ++ "/" ++ n) n x hx with ⟨chain, f, hmem, hclean, hpath⟩
    refine ⟨n :: chain, f, ?_, ?_, ?_⟩
    · show (n :: chain, f) ∈ filesWithChains (.dir n cs)
      unfold filesWithChains
      exact List.mem_map.mpr ⟨(chain, f), hmem, rfl⟩
    · intro d hd
      rcases List.mem_cons.mp hd with rfl | hd
      · exact Bool.not_eq_true _ ▸ Bool.of_not_eq_true hex
      · exact hclean d hd
    · exact hpath

theorem walkSpec_nil : WalkSpecF .nil := by
  intro pp pd x hx
  cases hx

theorem walkSpec_cons (t : FTree) (ts : FForest) (ih1 : WalkSpec t)
    (ih2 : WalkSpecF ts) : WalkSpecF (.cons t ts) := by
  intro pp pd x hx
  unfold walkForest at hx
  rcases List.mem_append.mp hx with hx | hx
  · rcases ih1 pp pd x hx with ⟨chain, f, hmem, hclean, hpath⟩
    exact ⟨chain, f, List.mem_append.mpr (Or.inl hmem), hclean, hpath⟩
  · rcases ih2 pp pd x hx with ⟨chain, f, hmem, hclean, hpath⟩
    exact ⟨chain, f, List.mem_append.mpr (Or.inr hmem), hclean, hpath⟩

/-- Simultaneous induction over the mutual tree type. -/
theorem walkSpec_all (t : FTree) : WalkSpec t :=
  @FTree.rec WalkSpec WalkSpecF walkSpec_file walkSpec_dir walkSpec_nil
    walkSpec_cons t

/-- C8: an excluded directory is pruned whole — the walk of such a directory
yields nothing and never descends — and every path the walk does output is
reachable through a chain of directory names none of which is excluded, so a
file lying under a `node_modules`/`vendor`/`.git`/`target`/`build`/`dist`
directory never appears in the output. -/
theorem discovery_excludes :
    (∀ pp pd n cs, excludedDir n = true →
        discoverSchemaFiles pp pd (.dir n cs) = []) ∧
    (∀ t pp pd x, x ∈ discoverSchemaFiles pp pd t →
        ∃ chain f, (chain, f) ∈ filesWithChains t ∧
          (∀ d ∈ chain, excludedDir d = false) ∧ x = mkPath pp chain f) := by
  constructor
  · intro pp pd n cs h
    unfold discoverSchemaFiles walkEntry
    rw [if_pos h]
  · intro t pp pd x hx
    exact walkSpec_all t pp pd x hx

/-- Witness for C8: a `node_modules` subtree containing `schema.sql` is
pruned, and a plain file's output path is justified by its (clean, empty)
chain. -/
theorem discovery_excludes_witness :
    discoverSchemaFiles "/root" "home"
        (.dir "node_modules" (.cons (.file "schema.sql") .nil)) = [] ∧
    (∃ chain f,
      (chain, f) ∈ filesWithChains (.file "schema.sql") ∧
      (∀ d ∈ chain, excludedDir d = false) ∧
      "/app/schema.sql" = mkPath "/app" chain f) :=
  ⟨discovery_excludes.1 "/root" "home" "node_modules"
      (.cons (.file "schema.sql") .nil) (by decide),
   discovery_excludes.2 (.file "schema.sql") "/app" "src" "/app/schema.sql"
      (by decide)⟩

